import Mathlib

/-!
Shallow embedding of the `coincidence` repository.

The repository holds two versions of the same small numpy library:

* `src/coincidence/coincidence.py` (the later version), embedded in
  namespace `Coincidence`: `link_table`, `jaccard_table`, the loop
  references `equal_to` and `both_1`, and `calc_ratios` with its
  joint NaN exclusion;
* `src/coincidence.py` (the earlier version), embedded in namespace
  `Old`: its `link_table` (missing treated as "not linked") and its
  `calc_ratios` (no NaN exclusion).

Values are IEEE floats whose only non-finite inhabitant used by the
code is NaN; we model a float cell as `Option ℚ`, with `none` playing
NaN.  numpy facts mirrored by the model: `nan == x` is `False` for
every `x` (including NaN); `nan + x`, `nan * x`, `nan - x` are NaN for
every `x` (including `0 * nan = nan`); array arithmetic and comparison
are elementwise, so every table entry is a function of the pair of
input cells it came from.
-/

namespace Coincidence

/-- A float cell: `none` is numpy's NaN, `some q` a finite value. -/
abbrev Val := Option ℚ

/-- NaN-propagating addition (`a + b` on floats). -/
def nanAdd : Val → Val → Val
  | some x, some y => some (x + y)
  | _, _ => none

/-- NaN-propagating multiplication (`a * b` on floats; `0 * nan = nan`). -/
def nanMul : Val → Val → Val
  | some x, some y => some (x * y)
  | _, _ => none

/-- NaN-propagating subtraction (`a - b` on floats). -/
def nanSub : Val → Val → Val
  | some x, some y => some (x - y)
  | _, _ => none

/-- Float equality test cast to float, as numpy's `a == b` stored into a
float array: NaN compares unequal to everything, so any comparison
involving NaN yields `0.0`. -/
def nanEqF : Val → Val → ℚ
  | some x, some y => if x = y then 1 else 0
  | _, _ => 0

/-- numpy's `a == 0` on a float cell: NaN is not zero. -/
def isZero (a : Val) : Bool := a == some 0

/-- Float division of finite values.  When the denominator is `0`, IEEE
division returns a non-finite value (NaN for `0/0`, ±inf otherwise),
which we model as `none`; in this library the numerator is `0` whenever
the denominator is, so the non-finite outcome is always NaN. -/
def nanDiv (a b : ℚ) : Val := if b = 0 then none else some (a / b)

/-- NaN-propagating sum of a float array (`np.sum`). -/
def nanSum (l : List Val) : Val := l.foldr nanAdd (some 0)

/-- Entry `(i, j)` of a matrix stored as a list of rows. -/
def entry (m : List (List Val)) (i j : Nat) : Val := (m.getD i []).getD j none

/-- One cell of `link_table`'s vectorized computation:
`arr[:, :] = col == row` followed by `arr[np.isnan(col + row)] = np.nan`. -/
def link_entry (a b : Val) : Val :=
  if nanAdd a b = none then none else some (nanEqF a b)

/-- `link_table(series_ids)`: outer float equality of the identifier
vector with itself, then NaN wherever either identifier is NaN. -/
def link_table (series_ids : List Val) : List (List Val) :=
  series_ids.map (fun a => series_ids.map (fun b => link_entry a b))

/-- One cell of `jaccard_table`'s vectorized computation:
`res = col * col.T` followed by `res[is_zero | is_zero.T] = 0`. -/
def jaccard_entry (a b : Val) : Val :=
  if isZero a || isZero b then some 0 else nanMul a b

/-- `jaccard_table(col)`: outer product of the feature vector with
itself, then a definite `0` forced wherever either input cell is `0`. -/
def jaccard_table (col : List Val) : List (List Val) :=
  col.map (fun a => col.map (fun b => jaccard_entry a b))

/-- One cell of the loop reference `equal_to`: NaN when either input is
NaN, else the float equality indicator. -/
def equal_to_entry (a b : Val) : Val :=
  if a = none ∨ b = none then none else some (nanEqF a b)

/-- `equal_to(col)`: the nested-loop reference for `link_table`. -/
def equal_to (col : List Val) : List (List Val) :=
  col.map (fun a => col.map (fun b => equal_to_entry a b))

/-- One cell of the loop reference `both_1`: `0 in (a, b)` (Python `==`
membership, so NaN never matches) gives `0`; else NaN when `a + b` is
NaN; else `1`. -/
def both_1_entry (a b : Val) : Val :=
  if a = some 0 ∨ b = some 0 then some 0
  else if nanAdd a b = none then none
  else some 1

/-- `both_1(col)`: the nested-loop reference for `jaccard_table`. -/
def both_1 (col : List Val) : List (List Val) :=
  col.map (fun a => col.map (fun b => both_1_entry a b))

/-- The pairs kept by `calc_ratios`'s mask
`not_nan = ~np.isnan(link_pairs + jacc_pairs)`: the two arrays are
filtered by the same joint mask. -/
def keptPairs (link_pairs jacc_pairs : List Val) : List (Val × Val) :=
  (link_pairs.zip jacc_pairs).filter (fun p => (nanAdd p.1 p.2).isSome)

/-- `calc_ratios(link_pairs, jacc_pairs)`: drop every position at which
either array is NaN, then form `n_links`, `n_jaccs`, `n_jl` and the two
ratios `n_jl / n_links` and `(n_jaccs - n_jl) / (n_pairs - n_links)`. -/
def calc_ratios (link_pairs jacc_pairs : List Val) : Val × Val :=
  let kept := keptPairs link_pairs jacc_pairs
  let lp := kept.map (fun p => p.1.getD 0)
  let jp := kept.map (fun p => p.2.getD 0)
  let n_links := lp.sum
  let n_jaccs := jp.sum
  let n_jl := ((lp.zip jp).map (fun p => p.1 * p.2)).sum
  (nanDiv n_jl n_links,
   nanDiv (n_jaccs - n_jl) ((lp.length : ℚ) - n_links))

/-- `np.tril_indices(n, -1)` order: rows top to bottom, and within row
`i` the columns `0, …, i-1`; applied to a matrix it unravels the strict
lower triangle in that order. -/
def tril_pairs (m : List (List Val)) : List Val :=
  (List.range m.length).flatMap (fun i => (List.range i).map (fun j => entry m i j))

end Coincidence

namespace Old

open Coincidence

/-- One cell of the earlier `link_table`, row `a`, column `b`: a column
whose identifier is NaN is skipped and keeps its `np.zeros` value `0.0`;
otherwise the cell is the float comparison `series_ids == series`, in
which a NaN row identifier compares unequal, hence `0.0`.  No cell is
ever NaN. -/
def link_entry (a b : Val) : Val :=
  if b = none then some 0 else some (nanEqF a b)

/-- The earlier version's `link_table(series_ids)` (from
`src/coincidence.py`). -/
def link_table (series_ids : List Val) : List (List Val) :=
  series_ids.map (fun a => series_ids.map (fun b => link_entry a b))

/-- NaN-aware division of float scalars: NaN in either operand
propagates, a zero denominator gives a non-finite result (`none`). -/
def nanDivV : Val → Val → Val
  | some x, some y => nanDiv x y
  | _, _ => none

/-- The earlier version's `calc_ratios(link_pairs, jacc_pairs)` (from
`src/coincidence.py`): no NaN exclusion; `n_links`, `n_jaccs` and the
dot product `n_jl` are NaN-propagating sums over the raw arrays. -/
def calc_ratios (link_pairs jacc_pairs : List Val) : Val × Val :=
  let n_links := nanSum link_pairs
  let n_jaccs := nanSum jacc_pairs
  let n_pairs : ℚ := link_pairs.length
  let n_jl := nanSum ((link_pairs.zip jacc_pairs).map (fun p => nanMul p.1 p.2))
  (nanDivV n_jl n_links,
   nanDivV (nanSub n_jaccs n_jl) (nanSub (some n_pairs) n_links))

end Old

namespace Coincidence

/-- Reading entry `(i, j)` of a table built as a broadcast (map of maps)
gives the element function applied to the two input cells. -/
theorem entry_map_map (f : Val → Val → Val) (l : List Val) (i j : Nat)
    (hi : i < l.length) (hj : j < l.length) :
    entry (l.map (fun a => l.map (fun b => f a b))) i j
      = f (l.getD i none) (l.getD j none) := by
  have hi' : i < (l.map (fun a => l.map (fun b => f a b))).length := by simpa using hi
  unfold entry
  rw [List.getD_eq_getElem _ _ hi', List.getElem_map]
  have hj' : j < (l.map (fun b => f l[i] b)).length := by simpa using hj
  rw [List.getD_eq_getElem _ _ hj', List.getElem_map,
      List.getD_eq_getElem _ _ hi, List.getD_eq_getElem _ _ hj]

/-- A cell read with `getD` inside the bounds of a `{0, 1, missing}`
vector is itself `0`, `1` or missing. -/
theorem getD_or_cases (l : List Val)
    (hc : ∀ v ∈ l, v = some 0 ∨ v = some 1 ∨ v = none)
    (i : Nat) (hi : i < l.length) :
    l.getD i none = some 0 ∨ l.getD i none = some 1 ∨ l.getD i none = none := by
  refine hc _ ?_
  rw [List.getD_eq_getElem _ _ hi]; exact List.getElem_mem hi

end Coincidence

open Coincidence

/-- C1: for a feature vector over `{0, 1, missing}` and indices `i, j`
in range, entry `(i, j)` of `jaccard_table` is `0` when `feature[i]` or
`feature[j]` is definitely `0` (even if the other is missing), else
missing when `feature[i]` or `feature[j]` is missing, else (both are
`1`) it is `1`. -/
theorem C1_jaccard_entry_rule (col : List Val)
    (hc : ∀ v ∈ col, v = some 0 ∨ v = some 1 ∨ v = none)
    (i j : Nat) (hi : i < col.length) (hj : j < col.length) :
    entry (jaccard_table col) i j =
      if col.getD i none = some 0 ∨ col.getD j none = some 0 then some 0
      else if col.getD i none = none ∨ col.getD j none = none then none
      else some 1 := by
  have ha := getD_or_cases col hc i hi
  have hb := getD_or_cases col hc j hj
  rw [jaccard_table, entry_map_map _ _ _ _ hi hj]
  rcases ha with h | h | h <;> rcases hb with h' | h' | h' <;> rw [h, h'] <;>
    simp [jaccard_entry, isZero, nanMul]

/-- Witness for C1 at `col = [0, 1, missing]`, `(i, j) = (1, 2)`: a `1`
against a missing value gives a missing coincidence entry. -/
theorem C1_witness :
    entry (jaccard_table [some 0, some 1, none]) 1 2 = none := by
  have h := C1_jaccard_entry_rule [some 0, some 1, none] (by simp) 1 2
    (by simp) (by simp)
  simpa using h

/-- C2: for an identifier vector and indices `i, j` in range, entry
`(i, j)` of `link_table` is missing when `identifier[i]` or
`identifier[j]` is missing, else `1` when they are equal and `0` when
unequal; in particular the diagonal entry `(i, i)` is `1` when
`identifier[i]` is present and missing when it is missing. -/
theorem C2_link_entry_rule (ids : List Val) (i j : Nat)
    (hi : i < ids.length) (hj : j < ids.length) :
    (entry (link_table ids) i j =
      if ids.getD i none = none ∨ ids.getD j none = none then none
      else if ids.getD i none = ids.getD j none then some 1 else some 0) ∧
    entry (link_table ids) i i =
      if ids.getD i none = none then none else some 1 := by
  constructor
  · rw [link_table, entry_map_map _ _ _ _ hi hj]
    rcases ids.getD i none with _ | x <;> rcases ids.getD j none with _ | y <;>
      simp [link_entry, nanAdd, nanEqF]
    by_cases hxy : x = y <;> simp [hxy]
  · rw [link_table, entry_map_map _ _ _ _ hi hi]
    rcases ids.getD i none with _ | x <;> simp [link_entry, nanAdd, nanEqF]

/-- Witness for C2 at `ids = [5, missing]`: the off-diagonal entry
against the missing identifier is missing, and the diagonal entry of
the present identifier is `1`. -/
theorem C2_witness :
    entry (link_table [some 5, none]) 0 1 = none ∧
    entry (link_table [some 5, none]) 0 0 = some 1 := by
  have h := C2_link_entry_rule [some 5, none] 0 1 (by simp) (by simp)
  exact ⟨h.1.trans (by simp), h.2.trans (by simp)⟩

/-- C8: both `link_table` and `jaccard_table` are symmetric: for any
input vectors and any in-range indices, entry `(i, j)` equals entry
`(j, i)` (missing entries included). -/
theorem C8_symmetry (ids col : List Val) (i j : Nat) :
    (i < ids.length → j < ids.length →
      entry (link_table ids) i j = entry (link_table ids) j i) ∧
    (i < col.length → j < col.length →
      entry (jaccard_table col) i j = entry (jaccard_table col) j i) := by
  constructor
  · intro hi hj
    rw [link_table, entry_map_map _ _ _ _ hi hj, entry_map_map _ _ _ _ hj hi]
    rcases ids.getD i none with _ | x <;> rcases ids.getD j none with _ | y <;>
      simp [link_entry, nanAdd, nanEqF]
    by_cases hxy : x = y <;> simp [hxy, eq_comm]
  · intro hi hj
    rw [jaccard_table, entry_map_map _ _ _ _ hi hj, entry_map_map _ _ _ _ hj hi]
    rcases col.getD i none with _ | x <;> rcases col.getD j none with _ | y
    · rfl
    · by_cases hy : y = 0 <;> simp [jaccard_entry, isZero, nanMul, hy]
    · by_cases hx : x = 0 <;> simp [jaccard_entry, isZero, nanMul, hx]
    · by_cases hx : x = 0 <;> by_cases hy : y = 0 <;>
        simp [jaccard_entry, isZero, nanMul, hx, hy, mul_comm]

/-- Witness for C8 at `ids = [1, missing]`, `col = [0, missing]`,
`(i, j) = (0, 1)`. -/
theorem C8_witness :
    entry (link_table [some 1, none]) 0 1 = entry (link_table [some 1, none]) 1 0 ∧
    entry (jaccard_table [some 0, none]) 0 1 = entry (jaccard_table [some 0, none]) 1 0 :=
  ⟨(C8_symmetry [some 1, none] [some 0, none] 0 1).1 (by simp) (by simp),
   (C8_symmetry [some 1, none] [some 0, none] 0 1).2 (by simp) (by simp)⟩

/-- C9: in the earlier version (`src/coincidence.py`), a row or column
of `link_table` belonging to a missing identifier is all `0`, never
missing: missing is silently treated as "not linked". -/
theorem C9_old_link_missing_is_zero (ids : List Val) (i j : Nat)
    (hi : i < ids.length) (hj : j < ids.length)
    (h : ids.getD i none = none ∨ ids.getD j none = none) :
    entry (Old.link_table ids) i j = some 0 := by
  rw [Old.link_table, entry_map_map _ _ _ _ hi hj]
  rcases hx : ids.getD i none with _ | x <;> rcases hy : ids.getD j none with _ | y
  · rfl
  · simp [Old.link_entry, nanEqF]
  · simp [Old.link_entry, nanEqF]
  · rw [hx, hy] at h
    simp at h

/-- Witness for C9 at `ids = [1, missing]`, `(i, j) = (0, 1)`. -/
theorem C9_witness : entry (Old.link_table [some 1, none]) 0 1 = some 0 :=
  C9_old_link_missing_is_zero [some 1, none] 0 1 (by simp) (by simp) (by simp)

/-- C5: the vectorized builders agree element-for-element with the
nested-loop references — `link_table` with `equal_to` for every
identifier vector, and `jaccard_table` with `both_1` for every feature
vector over `{0, 1, missing}`; equality of `Option` values counts
missing as equal to missing, exactly the comparison the claim asks
for. -/
theorem C5_vectorized_eq_reference (ids col : List Val)
    (hc : ∀ v ∈ col, v = some 0 ∨ v = some 1 ∨ v = none) :
    link_table ids = equal_to ids ∧ jaccard_table col = both_1 col := by
  constructor
  · refine List.map_congr_left (fun a _ => ?_)
    refine List.map_congr_left (fun b _ => ?_)
    rcases a with _ | x <;> rcases b with _ | y <;>
      simp [link_entry, equal_to_entry, nanAdd, nanEqF]
  · refine List.map_congr_left (fun a ha => ?_)
    refine List.map_congr_left (fun b hb => ?_)
    rcases hc a ha with h | h | h <;> rcases hc b hb with h' | h' | h' <;>
      rw [h, h'] <;>
      simp [jaccard_entry, both_1_entry, isZero, nanMul, nanAdd]

/-- Witness for C5 at `ids = [2, missing]`, `col = [0, 1, missing]`. -/
theorem C5_witness :
    link_table [some 2, none] = equal_to [some 2, none] ∧
    jaccard_table [some 0, some 1, none] = both_1 [some 0, some 1, none] :=
  C5_vectorized_eq_reference [some 2, none] [some 0, some 1, none] (by simp)

set_option maxHeartbeats 1000000 in
/-- C4: the full pipeline on identifiers `[0,1,1,2,3,missing,3,4]` and
feature `[0,missing,1,0,1,missing,1,0]` — build both tables, unravel the
strict lower triangle of each, reduce with `calc_ratios` — returns
`jl_ratio = 1` and `jnl_ratio = 2/17`. -/
theorem C4_missing_data_scenario :
    calc_ratios
      (tril_pairs (link_table [some 0, some 1, some 1, some 2, some 3, none, some 3, some 4]))
      (tril_pairs (jaccard_table [some 0, none, some 1, some 0, some 1, none, some 1, some 0]))
      = (some 1, some (2 / 17)) := by
  norm_num [calc_ratios, keptPairs, tril_pairs, entry, link_table, jaccard_table,
    link_entry, jaccard_entry, nanAdd, nanMul, nanEqF, isZero, nanDiv,
    List.range_succ]
  simp
  norm_num

namespace Coincidence

/-- The spec's §4.3 Step 1 description of exclusion: the fully observed
pairs, i.e. the positions at which neither array is missing, with both
values taken from the same position.  `calc_ratios` is compared against
computations over this list. -/
def observed (link_pairs jacc_pairs : List Val) : List (ℚ × ℚ) :=
  (link_pairs.zip jacc_pairs).filterMap (fun p =>
    match p.1, p.2 with
    | some a, some b => some (a, b)
    | _, _ => none)

/-- The masked-and-extracted pairs of `calc_ratios` are exactly the
fully observed pairs. -/
theorem kept_map_eq_observed (lp jp : List Val) :
    (keptPairs lp jp).map (fun p => (p.1.getD 0, p.2.getD 0)) = observed lp jp := by
  rw [keptPairs, observed]
  induction lp.zip jp with
  | nil => rfl
  | cons p l ih =>
    rcases p with ⟨a, b⟩
    rcases a with _ | x <;> rcases b with _ | y <;>
      simp only [List.filter_cons, List.filterMap_cons,
        show ∀ v : Val, (nanAdd none v).isSome = false from fun v => by cases v <;> rfl,
        show ∀ v : Val, (nanAdd v none).isSome = false from fun v => by cases v <;> rfl,
        show ∀ x y : ℚ, (nanAdd (some x) (some y)).isSome = true from fun x y => rfl] <;>
      simp [ih]

/-- `calc_ratios`, rewritten so that every count ranges over the fully
observed pairs only. -/
theorem calc_ratios_eq_observed (lp jp : List Val) :
    calc_ratios lp jp =
      (nanDiv ((observed lp jp).map (fun p => p.1 * p.2)).sum
              ((observed lp jp).map Prod.fst).sum,
       nanDiv (((observed lp jp).map Prod.snd).sum -
               ((observed lp jp).map (fun p => p.1 * p.2)).sum)
              (((observed lp jp).length : ℚ) -
               ((observed lp jp).map Prod.fst).sum)) := by
  have h1 : (keptPairs lp jp).map (fun p => p.1.getD 0)
      = (observed lp jp).map Prod.fst := by
    rw [← kept_map_eq_observed, List.map_map]; rfl
  have h2 : (keptPairs lp jp).map (fun p => p.2.getD 0)
      = (observed lp jp).map Prod.snd := by
    rw [← kept_map_eq_observed, List.map_map]; rfl
  have h3 : ((keptPairs lp jp).map (fun p => p.1.getD 0)).zip
        ((keptPairs lp jp).map (fun p => p.2.getD 0)) = observed lp jp := by
    rw [List.zip_map', kept_map_eq_observed]
  simp only [calc_ratios]
  rw [h3, h1, h2, List.length_map]

/-- A fully observed pair takes its two components from the two input
arrays. -/
theorem mem_observed {lp jp : List Val} {p : ℚ × ℚ} (hp : p ∈ observed lp jp) :
    some p.1 ∈ lp ∧ some p.2 ∈ jp := by
  rw [observed, List.mem_filterMap] at hp
  obtain ⟨a, ha, hfa⟩ := hp
  have hz := List.of_mem_zip ha
  rcases a with ⟨av, bv⟩
  rcases av with _ | x <;> rcases bv with _ | y <;> simp_all [Prod.ext_iff]

/-- Positional form of the exclusion: position `k` survives exactly
when both arrays are present at `k`, and then contributes both values. -/
theorem observed_eq_positions (lp : List Val) : ∀ jp : List Val,
    lp.length = jp.length →
    observed lp jp = (List.range lp.length).filterMap (fun k =>
      match lp.getD k none, jp.getD k none with
      | some a, some b => some (a, b)
      | _, _ => none) := by
  induction lp with
  | nil => intro jp h; simp [observed]
  | cons a lp ih =>
    intro jp h
    rcases jp with _ | ⟨b, jp⟩
    · simp at h
    · have IH := ih jp (by simpa using h)
      simp only [observed] at IH ⊢
      rcases a with _ | x <;> rcases b with _ | y <;>
        simp [List.range_succ_eq_map, List.filterMap_cons, List.filterMap_map,
          Function.comp_def, IH]

/-- Sum of a list of ones is its length. -/
theorem sum_of_ones (l : List ℚ) (h : ∀ x ∈ l, x = 1) : l.sum = (l.length : ℚ) := by
  induction l with
  | nil => simp
  | cons a l ih =>
    have ha := h a (by simp)
    have hl := ih (fun x hx => h x (by simp [hx]))
    simp [ha, hl]
    ring

/-- A pair kept by the joint NaN mask has both components present, and
each comes from its input array. -/
theorem mem_kept {lp jp : List Val} {p : Val × Val} (hp : p ∈ keptPairs lp jp) :
    p.1 ∈ lp ∧ p.1 ≠ none ∧ p.2 ∈ jp ∧ p.2 ≠ none := by
  rw [keptPairs, List.mem_filter] at hp
  obtain ⟨hz, hs⟩ := hp
  have hm := List.of_mem_zip hz
  rcases p with ⟨av, bv⟩
  rcases av with _ | x <;> rcases bv with _ | y <;> simp_all [nanAdd]

/-- Bounds on the sums computed from a list of `{0, 1}`-valued pairs:
the product sum is at least `0` and at most each component sum, and
the inclusion-exclusion sum is at most the length. -/
theorem ratio_sums_bounds (l : List (ℚ × ℚ))
    (h : ∀ p ∈ l, (p.1 = 0 ∨ p.1 = 1) ∧ (p.2 = 0 ∨ p.2 = 1)) :
    0 ≤ (l.map Prod.fst).sum ∧
    0 ≤ (l.map (fun p => p.1 * p.2)).sum ∧
    (l.map (fun p => p.1 * p.2)).sum ≤ (l.map Prod.fst).sum ∧
    (l.map (fun p => p.1 * p.2)).sum ≤ (l.map Prod.snd).sum ∧
    (l.map Prod.fst).sum + (l.map Prod.snd).sum - (l.map (fun p => p.1 * p.2)).sum
      ≤ (l.length : ℚ) := by
  induction l with
  | nil => simp
  | cons p l ih =>
    obtain ⟨h1, h2⟩ := h p (by simp)
    obtain ⟨i1, i2, i3, i4, i5⟩ := ih (fun q hq => h q (by simp [hq]))
    rcases h1 with h1 | h1 <;> rcases h2 with h2 | h2 <;>
      simp only [List.map_cons, List.sum_cons, List.length_cons, h1, h2] <;>
      push_cast <;>
      refine ⟨by linarith, by linarith, by linarith, by linarith, by linarith⟩

end Coincidence

/-- C3: `calc_ratios` excludes position `k` from every count exactly
when `link_pairs[k]` or `jacc_pairs[k]` is missing: the surviving pairs
are those with both positions observed (first conjunct, positional
form), and all four counts — `n_links`, `n_jaccs`, `n_jl` and the pair
total — range over exactly those surviving pairs (second conjunct). -/
theorem C3_joint_exclusion (lp jp : List Val) (h : lp.length = jp.length) :
    observed lp jp = (List.range lp.length).filterMap (fun k =>
      match lp.getD k none, jp.getD k none with
      | some a, some b => some (a, b)
      | _, _ => none) ∧
    calc_ratios lp jp =
      (nanDiv ((observed lp jp).map (fun p => p.1 * p.2)).sum
              ((observed lp jp).map Prod.fst).sum,
       nanDiv (((observed lp jp).map Prod.snd).sum -
               ((observed lp jp).map (fun p => p.1 * p.2)).sum)
              (((observed lp jp).length : ℚ) -
               ((observed lp jp).map Prod.fst).sum)) :=
  ⟨observed_eq_positions lp jp h, calc_ratios_eq_observed lp jp⟩

/-- Witness for C3: with `link_pairs = [1, missing]` and
`jacc_pairs = [1, 0]`, the position missing only in `link_pairs` is
dropped from both arrays, leaving the single pair `(1, 1)`. -/
theorem C3_witness :
    calc_ratios [some 1, none] [some 1, some 0] = (some 1, none) := by
  have h := (C3_joint_exclusion [some 1, none] [some 1, some 0] rfl).2
  rw [h]
  norm_num [observed, nanDiv, List.filterMap_cons]

/-- C6: over `{0, 1, missing}` pair vectors, when the pairs surviving
exclusion contain no link `1` (zero linked pairs, so the `jl_ratio`
denominator is `0`) the first ratio is NaN, and when they are all link
`1` (zero non-linked pairs, so the `jnl_ratio` denominator is `0`) the
second ratio is NaN; `calc_ratios` is total, so no exception is
raised. -/
theorem C6_degenerate_ratio_is_nan (lp jp : List Val)
    (hlp : ∀ v ∈ lp, v = some 0 ∨ v = some 1 ∨ v = none) :
    ((∀ p ∈ keptPairs lp jp, p.1 ≠ some 1) → (calc_ratios lp jp).1 = none) ∧
    ((∀ p ∈ keptPairs lp jp, p.1 = some 1) → (calc_ratios lp jp).2 = none) := by
  constructor
  · intro hall
    have hsum : ((keptPairs lp jp).map (fun p => p.1.getD 0)).sum = 0 := by
      refine List.sum_eq_zero ?_
      intro x hx
      rw [List.mem_map] at hx
      obtain ⟨p, hp, rfl⟩ := hx
      obtain ⟨hm1, hne, -, -⟩ := mem_kept hp
      rcases hlp _ hm1 with h0 | h1 | hn
      · rw [h0]; rfl
      · exact absurd h1 (hall p hp)
      · exact absurd hn hne
    simp only [calc_ratios]
    simp [nanDiv, hsum]
  · intro hall
    have hsum : ((keptPairs lp jp).map (fun p => p.1.getD 0)).sum
        = (((keptPairs lp jp).map (fun p => p.1.getD 0)).length : ℚ) := by
      refine sum_of_ones _ ?_
      intro x hx
      rw [List.mem_map] at hx
      obtain ⟨p, hp, rfl⟩ := hx
      rw [hall p hp]; rfl
    simp only [calc_ratios]
    simp [nanDiv, hsum]

/-- Witness for C6: with `link_pairs = [0, missing]` the only surviving
pair has link `0`, and the linked ratio comes out NaN rather than an
error. -/
theorem C6_witness : (calc_ratios [some 0, none] [some 1, some 1]).1 = none :=
  (C6_degenerate_ratio_is_nan [some 0, none] [some 1, some 1] (by simp)).1
    (by norm_num [keptPairs, nanAdd])

/-- C7: for equal-length `{0, 1, missing}` pair vectors, each ratio
returned by `calc_ratios`, whenever it is defined (is a finite value,
i.e. its post-exclusion denominator is nonzero), lies in `[0, 1]`. -/
theorem C7_ratio_bounds (lp jp : List Val) (h : lp.length = jp.length)
    (hlp : ∀ v ∈ lp, v = some 0 ∨ v = some 1 ∨ v = none)
    (hjp : ∀ v ∈ jp, v = some 0 ∨ v = some 1 ∨ v = none) :
    (∀ q, (calc_ratios lp jp).1 = some q → 0 ≤ q ∧ q ≤ 1) ∧
    (∀ q, (calc_ratios lp jp).2 = some q → 0 ≤ q ∧ q ≤ 1) := by
  have hdom : ∀ p ∈ observed lp jp, (p.1 = 0 ∨ p.1 = 1) ∧ (p.2 = 0 ∨ p.2 = 1) := by
    intro p hp
    obtain ⟨h1, h2⟩ := mem_observed hp
    constructor
    · rcases hlp _ h1 with h' | h' | h' <;> simp_all
    · rcases hjp _ h2 with h' | h' | h' <;> simp_all
  obtain ⟨b1, b2, b3, b4, b5⟩ := ratio_sums_bounds _ hdom
  rw [calc_ratios_eq_observed]
  constructor
  · intro q hq
    simp only [nanDiv] at hq
    by_cases hd : ((observed lp jp).map Prod.fst).sum = 0
    · rw [if_pos hd] at hq; cases hq
    · rw [if_neg hd] at hq
      injection hq with hq
      subst hq
      have hpos : 0 < ((observed lp jp).map Prod.fst).sum :=
        lt_of_le_of_ne b1 (Ne.symm hd)
      constructor
      · exact div_nonneg b2 b1
      · rw [div_le_one hpos]; exact b3
  · intro q hq
    simp only [nanDiv] at hq
    by_cases hd : ((observed lp jp).length : ℚ) - ((observed lp jp).map Prod.fst).sum = 0
    · rw [if_pos hd] at hq; cases hq
    · rw [if_neg hd] at hq
      injection hq with hq
      subst hq
      have hpos : 0 < ((observed lp jp).length : ℚ) - ((observed lp jp).map Prod.fst).sum :=
        lt_of_le_of_ne (by linarith) (Ne.symm hd)
      constructor
      · exact div_nonneg (by linarith) (by linarith)
      · rw [div_le_one hpos]; linarith

/-- Witness for C7: the defined linked ratio `1/2` of a concrete input
lies in `[0, 1]`. -/
theorem C7_witness : (0:ℚ) ≤ 1/2 ∧ (1:ℚ)/2 ≤ 1 :=
  (C7_ratio_bounds [some 1, some 1] [some 1, some 0] rfl (by simp) (by simp)).1 (1/2)
    (by norm_num [calc_ratios, keptPairs, nanAdd, nanDiv])

namespace Coincidence

/-- A NaN anywhere in an array makes its NaN-propagating sum NaN. -/
theorem nanSum_eq_none {l : List Val} (h : none ∈ l) : nanSum l = none := by
  induction l with
  | nil => simp at h
  | cons a l ih =>
    rcases List.mem_cons.mp h with ha | hl
    · rw [← ha]
      rfl
    · show nanAdd a (nanSum l) = none
      rw [ih hl]
      cases a <;> rfl

/-- With equal lengths, a NaN in either array puts a NaN into the
elementwise product array. -/
theorem prod_has_none {lp : List Val} : ∀ {jp : List Val},
    lp.length = jp.length → (none ∈ lp ∨ none ∈ jp) →
    none ∈ (lp.zip jp).map (fun p => nanMul p.1 p.2) := by
  induction lp with
  | nil =>
    intro jp h hm
    rcases jp with _ | ⟨b, jp⟩
    · simp at hm
    · simp at h
  | cons a lp ih =>
    intro jp h hm
    rcases jp with _ | ⟨b, jp⟩
    · simp at h
    · have hlen : lp.length = jp.length := by simpa using h
      rcases hm with hm | hm
      · rcases List.mem_cons.mp hm with ha | hl
        · refine List.mem_cons.mpr (Or.inl ?_)
          rw [← ha]
          cases b <;> rfl
        · exact List.mem_cons.mpr (Or.inr (ih hlen (Or.inl hl)))
      · rcases List.mem_cons.mp hm with hb | hl
        · refine List.mem_cons.mpr (Or.inl ?_)
          rw [← hb]
          cases a <;> rfl
        · exact List.mem_cons.mpr (Or.inr (ih hlen (Or.inr hl)))

end Coincidence

/-- C10: the earlier version's `calc_ratios` (from `src/coincidence.py`)
performs no missing-pair exclusion: as soon as any entry of either
equal-length input array is NaN, NaN propagates through the sums and
both returned ratios are NaN. -/
theorem C10_old_no_exclusion (lp jp : List Val) (h : lp.length = jp.length)
    (hm : none ∈ lp ∨ none ∈ jp) :
    Old.calc_ratios lp jp = (none, none) := by
  have hjl : nanSum ((lp.zip jp).map (fun p => nanMul p.1 p.2)) = none :=
    nanSum_eq_none (prod_has_none h hm)
  simp only [Old.calc_ratios, hjl]
  rcases nanSum lp with _ | u <;> rcases nanSum jp with _ | v <;>
    simp [Old.nanDivV, nanSub]

/-- Witness for C10 at `link_pairs = [1, missing]`,
`jacc_pairs = [0, 1]`: both ratios are NaN. -/
theorem C10_witness : Old.calc_ratios [some 1, none] [some 0, some 1] = (none, none) :=
  C10_old_no_exclusion [some 1, none] [some 0, some 1] rfl (Or.inl (by simp))
